import Mathlib

/-!
# go-zte-sms: the message decoder, the login digest and the query validation

A shallow embedding of `zte_sms.go`, `zte_connector.go` and `handler.go`.

Conventions.

* A Go `string` that reaches this code is a field of a JSON-decoded record, a
  query value or a literal, hence valid UTF-8.  It is modelled by a Lean
  `String`, read as its list of Unicode scalar values (`String.data`).  A test
  that Go makes on a byte is made here on a character: every byte of a
  non-ASCII character is `≥ 0x80`, so it fails each ASCII test the library
  makes, exactly as the character does.  `len(s)` is the UTF-8 length.
* Go `int` is 64 bits wide.  Integers are `Int`/`Nat`, with an explicit wrap
  where the Go arithmetic can overflow.
* A Go result `(v, err)` is a pair `(v, err?)` where the value returned next to
  a non-nil error is observable (`strconv.Atoi`, `NewZTESMS`) and an `Except`
  where the caller cannot see it.
* The standard library functions the repository calls (`strconv.Atoi`,
  `hex.DecodeString`, `utf16.Decode`, `strings.Split`, ...) are transcribed
  from the Go standard library, specialised to the arguments used here.
  `time.Date`, `time.Now`, SHA-256, base64 and the network are not modelled:
  they are symbolic constructors or parameters.
-/

namespace ZTE

/-! ## Machine integers -/

/-- Go's `strconv.IntSize` on 64-bit targets. -/
def intSize : Nat := 64

/-- Largest value of a Go `int`. -/
def maxInt : Int := 2 ^ 63 - 1

/-- Smallest value of a Go `int`. -/
def minInt : Int := -(2 ^ 63)

/-- Largest value of a Go `uint64`. -/
def maxUint64 : Nat := 2 ^ 64 - 1

/-- Two's complement wrap of a mathematical integer into a Go `int`. -/
def wrapInt (x : Int) : Int := (x + 2 ^ 63) % 2 ^ 64 - 2 ^ 63

/-- The Go expression `len(s)`: the number of bytes of the UTF-8 encoding. -/
def len (s : List Char) : Nat := (s.map Char.utf8Size).sum

/-! ## The Go library: `strconv` -/

/-- The two sentinel errors a `*strconv.NumError` wraps. -/
inductive NumError where
  | ErrSyntax
  | ErrRange
deriving DecidableEq, Repr

/-- The test `'0' <= c && c <= '9'`. -/
def isDigit (c : Char) : Bool := 48 ≤ c.toNat && c.toNat ≤ 57

/-- The digit loop of `strconv.ParseUint(s, 10, 0)`, started with accumulator
`n`.  With base 10 a letter is a digit value `≥ base` and `_` is not accepted,
so every character other than `0`..`9` is a syntax error.  `cutoff` is
`maxUint64/10 + 1`; `n1 < n` detects the wrap of the 64-bit addition.  A range
error returns at once, without looking at the rest of the input. -/
def parseUintLoop : List Char → Nat → Nat × Option NumError
  | [], n => (n, none)
  | c :: cs, n =>
    if isDigit c then
      let d := c.toNat - 48
      if n ≥ maxUint64 / 10 + 1 then (maxUint64, some .ErrRange)
      else
        let n := n * 10
        let n1 := (n + d) % 2 ^ 64
        if n1 < n ∨ n1 > maxUint64 then (maxUint64, some .ErrRange)
        else parseUintLoop cs n1
    else (0, some .ErrSyntax)

/-- Go's `strconv.ParseUint(s, 10, 0)`. -/
def ParseUint (s : List Char) : Nat × Option NumError :=
  match s with
  | [] => (0, some .ErrSyntax)
  | _ => parseUintLoop s 0

/-- Go's `strconv.ParseInt(s, 10, 0)`: a syntax error returns 0; a range error
returns the bound of the `int` range on the side of the sign. -/
def ParseInt (s : List Char) : Int × Option NumError :=
  match s with
  | [] => (0, some .ErrSyntax)
  | c :: cs =>
    let neg := c = '-'
    let s1 := if c = '+' ∨ c = '-' then cs else c :: cs
    match ParseUint s1 with
    | (_, some .ErrSyntax) => (0, some .ErrSyntax)
    | (un, _) =>
      let cutoff : Nat := 2 ^ (intSize - 1)
      if ¬ neg ∧ un ≥ cutoff then ((cutoff : Int) - 1, some .ErrRange)
      else if neg ∧ un > cutoff then (-(cutoff : Int), some .ErrRange)
      else if neg then (-(un : Int), none) else ((un : Int), none)

/-- The digit loop of the fast path of `strconv.Atoi`: `ch -= '0'; if ch > 9`
fails on every character other than `0`..`9`.  The fast path runs on fewer
than 19 bytes, so `n` stays below `10 ^ 18` and the `int` cannot overflow. -/
def atoiFastLoop : List Char → Int → Option Int
  | [], n => some n
  | c :: cs, n => if isDigit c then atoiFastLoop cs (n * 10 + (c.toNat - 48 : Nat)) else none

/-- Go's `strconv.Atoi`, with its fast path for short inputs and the slow path
through `ParseInt(s, 10, 0)`.  The value is returned next to the error. -/
def Atoi (s : List Char) : Int × Option NumError :=
  if 0 < len s ∧ len s < 19 then
    match s with
    | [] => (0, some .ErrSyntax)
    | c :: cs =>
      let s1 := if c = '-' ∨ c = '+' then cs else c :: cs
      if (c = '-' ∨ c = '+') ∧ s1.length < 1 then (0, some .ErrSyntax)
      else
        match atoiFastLoop s1 0 with
        | none => (0, some .ErrSyntax)
        | some n => if c = '-' then (-n, none) else (n, none)
  else ParseInt s

/-! ## The Go library: `encoding/hex` -/

/-- The errors of `hex.DecodeString`. -/
inductive HexError where
  | InvalidByteError (c : Char)
  | ErrLength
deriving DecidableEq, Repr

/-- The table `reverseHexTable`: the value of a hexadecimal digit of either
case, `none` where the table holds `0xff`. -/
def fromHexChar (c : Char) : Option Nat :=
  if 48 ≤ c.toNat ∧ c.toNat ≤ 57 then some (c.toNat - 48)
  else if 97 ≤ c.toNat ∧ c.toNat ≤ 102 then some (c.toNat - 97 + 10)
  else if 65 ≤ c.toNat ∧ c.toNat ≤ 70 then some (c.toNat - 65 + 10)
  else none

/-- Go's `hex.DecodeString`: two digits per byte; a character that is not a
hexadecimal digit is reported before an odd length.  The bytes decoded before
an error are dropped, as `NewZTESMS` never reads them. -/
def DecodeString : List Char → Except HexError (List Nat)
  | [] => .ok []
  | [p] =>
    match fromHexChar p with
    | none => .error (.InvalidByteError p)
    | some _ => .error .ErrLength
  | p :: q :: rest =>
    match fromHexChar p, fromHexChar q with
    | none, _ => .error (.InvalidByteError p)
    | some _, none => .error (.InvalidByteError q)
    | some a, some b =>
      match DecodeString rest with
      | .error e => .error e
      | .ok bs => .ok (((a <<< 4) ||| b) :: bs)

/-- The table `hextable` of `encoding/hex`. -/
def hextable : List Char := "0123456789abcdef".data

/-- Go's `hex.EncodeToString`: `hextable[v>>4]`, `hextable[v&0x0f]` per byte. -/
def EncodeToString (src : List Nat) : List Char :=
  src.flatMap (fun v => [hextable.getD (v >>> 4) '0', hextable.getD (v &&& 0x0f) '0'])

/-! ## The Go library: `unicode/utf16` and the conversion `string([]rune)` -/

/-- Go's `utf16.Decode`: a unit outside the surrogate range is a rune, a high
surrogate followed by a low one is combined as `utf16.DecodeRune` does, and
any other surrogate becomes U+FFFD. -/
def utf16Decode : List Nat → List Nat
  | [] => []
  | [r] => if r < 0xd800 ∨ 0xe000 ≤ r then [r] else [0xFFFD]
  | r :: r2 :: rest =>
    if r < 0xd800 ∨ 0xe000 ≤ r then r :: utf16Decode (r2 :: rest)
    else if 0xd800 ≤ r ∧ r < 0xdc00 ∧ 0xdc00 ≤ r2 ∧ r2 < 0xe000 then
      ((((r - 0xd800) <<< 10) ||| (r2 - 0xdc00)) + 0x10000) :: utf16Decode rest
    else 0xFFFD :: utf16Decode (r2 :: rest)

/-- One rune of the conversion `string([]rune)`: a value that is not a Unicode
scalar value is written as U+FFFD. -/
def runeToChar (r : Nat) : Char :=
  if r.isValidChar then Char.ofNat r else Char.ofNat 0xFFFD

/-- The Go conversion `string(runes)`. -/
def runesToString (runes : List Nat) : String := String.mk (runes.map runeToChar)

/-! ## The Go library: `strings` -/

/-- Go's `strings.Split(s, ",")`: the pieces between the commas; a string
without a comma, the empty one included, is a single piece. -/
def Split : List Char → List (List Char)
  | [] => [[]]
  | c :: cs =>
    if c = ',' then [] :: Split cs
    else
      match Split cs with
      | [] => [[c]]
      | p :: ps => (c :: p) :: ps

/-- Go's `strings.ToUpper` on ASCII text, the only text it is applied to here
(the output of `hex.EncodeToString`): `a`..`z` become `A`..`Z`. -/
def ToUpper (s : List Char) : List Char :=
  s.map (fun c => if 97 ≤ c.toNat ∧ c.toNat ≤ 122 then Char.ofNat (c.toNat - 32) else c)

/-! ## The decoder, `zte_sms.go` -/

/-- The raw record `ZTEMessage`: every field is a string. -/
structure ZTEMessage where
  ID : String
  Number : String
  Content : String
  Tag : String
  Date : String
  ReceivedAllConcatSMS : String
  ConcatSMSTotal : String
  ConcatSMSReceived : String
  SMSClass : String
deriving DecidableEq, Repr

/-- A `time.Time`, kept symbolic: the zero value, the result of the call
`time.Date(year, month, day, hour, min, sec, nsec, time.Local)` on these
arguments, or the value `time.Now()` returns when the wall clock reads
`clock`.  The normalisation and time-zone lookup inside `time.Date` are not
modelled. -/
inductive Time where
  | Zero
  | Date (year month day hour min sec nsec : Int)
  | Now (clock : Nat)
deriving DecidableEq, Repr

/-- The decoded record `ZTESMS`. -/
structure ZTESMS where
  ID : Int
  Number : String
  Content : String
  Tag : String
  Date : Time
  ReceivedAllConcatSMS : Bool
  ConcatSMSTotal : Int
  ConcatSMSReceived : Int
  SMSClass : Int
  Read : Bool
deriving DecidableEq, Repr

/-- The two errors `NewZTESMS` builds with `fmt.Errorf`: "invalid ID: ..." and
"failed to decode content hex: ...", each around the library error. -/
inductive DecodeError where
  | invalidID (err : NumError)
  | contentHex (err : HexError)
deriving DecidableEq, Repr

/-- The loop of `NewZTESMS` that joins the bytes two by two into big-endian
16-bit units, `uint16(b[i])<<8 | uint16(b[i+1])`; it stops (`break`) at a last
byte without a partner. -/
def contentUTF16 : List Nat → List Nat
  | hi :: lo :: rest => (((hi <<< 8) % 2 ^ 16) ||| lo) :: contentUTF16 rest
  | _ => []

/-- The value `strconv.Atoi` returns, its error discarded (`v, _ := ...`). -/
def atoiValue (s : List Char) : Int := (Atoi s).1

/-- The date step of `NewZTESMS`: at least six comma-separated pieces give
`time.Date(2000+year, ...)`, with `2000+year` computed on `int`; fewer give
`time.Now()`. -/
def parseDate (clock : Nat) (date : String) : Time :=
  let dateParts := Split date.data
  if dateParts.length ≥ 6 then
    let year := atoiValue (dateParts.getD 0 [])
    let month := atoiValue (dateParts.getD 1 [])
    let day := atoiValue (dateParts.getD 2 [])
    let hour := atoiValue (dateParts.getD 3 [])
    let min := atoiValue (dateParts.getD 4 [])
    let sec := atoiValue (dateParts.getD 5 [])
    Time.Date (wrapInt (2000 + year)) month day hour min sec 0
  else Time.Now clock

/-- The function `NewZTESMS`.  `clock` is the reading of the wall clock that
`time.Now()` would return during the call.  As in Go, the record built so far
is returned next to the error. -/
def NewZTESMS (clock : Nat) (msg : ZTEMessage) : ZTESMS × Option DecodeError :=
  let sms : ZTESMS :=
    { ID := 0, Number := msg.Number, Content := "", Tag := msg.Tag, Date := Time.Zero,
      ReceivedAllConcatSMS := false, ConcatSMSTotal := 0, ConcatSMSReceived := 0,
      SMSClass := 0, Read := false }
  match Atoi msg.ID.data with
  | (_, some err) => (sms, some (.invalidID err))
  | (id, none) =>
    let sms := { sms with ID := id }
    match DecodeString msg.Content.data with
    | .error err => (sms, some (.contentHex err))
    | .ok contentBytes =>
      let sms := { sms with Content := runesToString (utf16Decode (contentUTF16 contentBytes)) }
      let sms := { sms with Date := parseDate clock msg.Date }
      let sms := { sms with Read := msg.Tag != "1" }
      let sms := { sms with ReceivedAllConcatSMS := msg.ReceivedAllConcatSMS == "1" }
      let sms := { sms with ConcatSMSTotal := atoiValue msg.ConcatSMSTotal.data }
      let sms := { sms with ConcatSMSReceived := atoiValue msg.ConcatSMSReceived.data }
      let sms := { sms with SMSClass := atoiValue msg.SMSClass.data }
      (sms, none)

/-! ## The connector, `zte_connector.go` -/

/-- The function `getLoginErrorMessage`. -/
def getLoginErrorMessage (code : String) : String :=
  if code = "0" then "Login OK"
  else if code = "1" then "Login Fail"
  else if code = "2" then "Duplicate User"
  else if code = "3" then "Bad Password"
  else "Unknown error"

/-- The function `sha256Hex`: `strings.ToUpper(hex.EncodeToString(hash[:]))`,
where `Sum256 str` stands for the bytes of `sha256.Sum256([]byte(str))`. -/
def sha256Hex (Sum256 : String → List Nat) (str : String) : String :=
  String.mk (ToUpper (EncodeToString (Sum256 str)))

/-- What `Login` reads of the reply to its POST: the status code and the
outcome of decoding the JSON body, an error or the field `result`. -/
structure Response where
  StatusCode : Nat
  Result : Except String String

/-- The device as `Login` meets it: the outcome of each network step, an error
text or a value.  `getNumericConfig` and `getLoginLD` are the outcomes of the
methods of these names, `newRequest` of creating the POST request, and `Do p`
of sending the login POST whose form carries `password = p`. -/
structure Device where
  getNumericConfig : String → Except String Int
  getLoginLD : Except String String
  newRequest : Except String Unit
  Do : String → Except String Response

/-- What a call of `Login` did: `posted` is the `password` value of the login
POST when the POST was sent, `err` the text of the returned error, `none` for
`nil`. -/
structure LoginResult where
  posted : Option String
  err : Option String
deriving DecidableEq, Repr

/-- The method `ZTEConnector.Login`.  `base64 s` stands for
`base64.StdEncoding.EncodeToString([]byte(s))`. -/
def Login (Sum256 : String → List Nat) (base64 : String → String) (dev : Device)
    (password : String) : LoginResult :=
  match dev.getNumericConfig "WEB_ATTR_IF_SUPPORT_SHA256" with
  | .error err => ⟨none, some ("failed to get WEB_ATTR_IF_SUPPORT_SHA256: " ++ err)⟩
  | .ok supportSHA256 =>
    let hashed : Except String String :=
      if supportSHA256 = 0 then .ok (base64 password)
      else if supportSHA256 = 1 then .ok (sha256Hex Sum256 (base64 password))
      else if supportSHA256 = 2 then
        match dev.getLoginLD with
        | .error err => .error ("failed to get LD: " ++ err)
        | .ok LD => .ok (sha256Hex Sum256 (sha256Hex Sum256 password ++ LD))
      else .error ("unsupported WEB_ATTR_IF_SUPPORT_SHA256: " ++ toString supportSHA256)
    match hashed with
    | .error err => ⟨none, some err⟩
    | .ok hashPassword =>
      match dev.newRequest with
      | .error err => ⟨none, some ("failed to create login request: " ++ err)⟩
      | .ok _ =>
        match dev.Do hashPassword with
        | .error err =>
          ⟨some hashPassword, some ("failed to perform login request: " ++ err)⟩
        | .ok resp =>
          if resp.StatusCode ≠ 200 then
            ⟨some hashPassword,
              some ("login request returned status " ++ toString resp.StatusCode)⟩
          else
            match resp.Result with
            | .error err =>
              ⟨some hashPassword, some ("failed to decode login response: " ++ err)⟩
            | .ok result =>
              if result ≠ "0" then
                ⟨some hashPassword, some ("login failed: " ++ getLoginErrorMessage result)⟩
              else ⟨some hashPassword, none⟩

/-- The decoding loop of `GetSMS`: a record that fails is logged and skipped
(`continue`), the others are appended in order.  `clock i` is the wall clock
during the decoding of the record of index `i`. -/
def decodeLoop (clock : Nat → Nat) : Nat → List ZTEMessage → List ZTESMS → List ZTESMS
  | _, [], smsList => smsList
  | i, msg :: rest, smsList =>
    match NewZTESMS (clock i) msg with
    | (_, some _) => decodeLoop clock (i + 1) rest smsList
    | (sms, none) => decodeLoop clock (i + 1) rest (smsList ++ [sms])

/-- The method `ZTEConnector.GetSMS`, from the outcome of its request: the
text of the error of one of the steps before the loop, or the field `messages`
of the decoded reply. -/
def GetSMS (clock : Nat → Nat) (response : Except String (List ZTEMessage)) :
    List ZTESMS × Option String :=
  match response with
  | .error err => ([], some err)
  | .ok messages => (decodeLoop clock 0 messages [], none)

/-! ## The front end, `handler.go` -/

/-- Go's `url.Values.Get` on the parsed query: the first value of the key, the
empty string when there is none. -/
def Get (values : String → List String) (key : String) : String :=
  match values key with
  | [] => ""
  | v :: _ => v

/-- The function `parseQueryParam`, on the parsed query `r.URL.Query()`.  The
error returned is the one of `strconv.Atoi`, `none` for `nil`. -/
def parseQueryParam (values : String → List String) (name : String)
    (defaultValue min max : Int) : Int × Option NumError :=
  let param := Get values name
  if param = "" then (defaultValue, none)
  else
    match Atoi param.data with
    | (value, err) =>
      if err ≠ none ∨ value < min ∨ value > max then (0, err)
      else (value, none)

/-! ## The words of the specification

Definitions that follow the specification, not the code: what it is for a
string to parse as an integer or to be hexadecimal, how a text is encoded, and
the closed forms the code is compared with. -/

/-- Value of a run of decimal digits, continued from `n`. -/
def digitsFrom (n : Nat) (ds : List Char) : Nat :=
  ds.foldl (fun a c => a * 10 + (c.toNat - 48)) n

/-- The string without its leading sign, if it has one. -/
def unsignedPart (s : List Char) : List Char :=
  match s with
  | [] => []
  | c :: cs => if c = '+' ∨ c = '-' then cs else c :: cs

/-- The string starts with a minus sign. -/
def isNegative (s : List Char) : Bool :=
  match s with
  | [] => false
  | c :: _ => c = '-'

/-- A base-10 integer literal: an optional sign, then one digit or more. -/
def IsDecimal (s : List Char) : Bool :=
  !(unsignedPart s).isEmpty && (unsignedPart s).all isDigit

/-- The integer a base-10 literal denotes. -/
def decimalValue (s : List Char) : Int :=
  if isNegative s then -(digitsFrom 0 (unsignedPart s) : Int)
  else (digitsFrom 0 (unsignedPart s) : Int)

/-- The number written by the digits that follow the optional sign, up to the
first character that is not a digit. -/
def leadingValue (s : List Char) : Nat :=
  digitsFrom 0 ((unsignedPart s).takeWhile isDigit)

/-- The string parses as a base-10 `int`: it is a literal whose value fits. -/
def ParsesAsInt (s : List Char) : Prop :=
  IsDecimal s = true ∧ minInt ≤ decimalValue s ∧ decimalValue s ≤ maxInt

instance (s : List Char) : Decidable (ParsesAsInt s) :=
  inferInstanceAs (Decidable (_ ∧ _ ∧ _))

/-- Closed form of `Atoi`: value and error for every string. -/
def atoiSpec (s : List Char) : Int × Option NumError :=
  if unsignedPart s = [] then (0, some .ErrSyntax)
  else if leadingValue s > maxUint64 then
    (if isNegative s then minInt else maxInt, some .ErrRange)
  else if IsDecimal s = false then (0, some .ErrSyntax)
  else if decimalValue s < minInt then (minInt, some .ErrRange)
  else if decimalValue s > maxInt then (maxInt, some .ErrRange)
  else (decimalValue s, none)

/-- The integer a leniently read field takes: the value of the string when it
parses; for a literal that does not fit, or a string whose leading digits
already exceed `2 ^ 64 - 1`, the bound of the `int` range on the side of the
sign; zero for every other string. -/
def lenientInt (s : List Char) : Int :=
  if ParsesAsInt s then decimalValue s
  else if IsDecimal s = true ∨ leadingValue s > maxUint64 then
    (if isNegative s then minInt else maxInt)
  else 0

/-- A hexadecimal digit, of either case. -/
def isHexDigit (c : Char) : Bool :=
  (48 ≤ c.toNat && c.toNat ≤ 57) || (97 ≤ c.toNat && c.toNat ≤ 102) ||
    (65 ≤ c.toNat && c.toNat ≤ 70)

/-- A valid hexadecimal string: hexadecimal digits only, two for each byte. -/
def IsHexString (s : List Char) : Prop :=
  s.length % 2 = 0 ∧ ∀ c ∈ s, isHexDigit c = true

instance (s : List Char) : Decidable (IsHexString s) :=
  inferInstanceAs (Decidable (_ ∧ _))

/-- UTF-16 code units of a text, in the words of the specification: a scalar
value below `0x10000` is one unit, any other a surrogate pair. -/
def utf16Encode (text : List Char) : List Nat :=
  text.flatMap (fun c =>
    if c.toNat < 0x10000 then [c.toNat]
    else [0xd800 + (c.toNat - 0x10000) / 0x400, 0xdc00 + (c.toNat - 0x10000) % 0x400])

/-- Big-endian bytes of 16-bit units: high byte first. -/
def bigEndianBytes (units : List Nat) : List Nat :=
  units.flatMap (fun u => [u / 256, u % 256])

/-- Hexadecimal text of a byte sequence, two digits per byte, in upper or in
lower case. -/
def hexEncode (upper : Bool) (bytes : List Nat) : List Char :=
  if upper then ToUpper (EncodeToString bytes) else EncodeToString bytes

/-- The table of upper-case hexadecimal digits. -/
def upperHexTable : List Char := "0123456789ABCDEF".data

/-- Upper-case hexadecimal text of a byte sequence, in the words of the
specification ("uppercase-hex"): two digits per byte, high one first. -/
def upperHex (bytes : List Nat) : String :=
  String.mk (bytes.flatMap (fun v => [upperHexTable.getD (v / 16) '0', upperHexTable.getD (v % 16) '0']))

/-- The part of `Login` from the sending of the POST on, for the password
value `hashPassword`. -/
def postOutcome (dev : Device) (hashPassword : String) : LoginResult :=
  match dev.Do hashPassword with
  | .error err => ⟨some hashPassword, some ("failed to perform login request: " ++ err)⟩
  | .ok resp =>
    if resp.StatusCode ≠ 200 then
      ⟨some hashPassword, some ("login request returned status " ++ toString resp.StatusCode)⟩
    else
      match resp.Result with
      | .error err => ⟨some hashPassword, some ("failed to decode login response: " ++ err)⟩
      | .ok result =>
        if result ≠ "0" then
          ⟨some hashPassword, some ("login failed: " ++ getLoginErrorMessage result)⟩
        else ⟨some hashPassword, none⟩

/-! ## Concrete inputs -/

/-- The record of the date example of the specification. -/
def dateExample : ZTEMessage :=
  { ID := "7", Number := "+66812345678", Content := "00480069", Tag := "1",
    Date := "23,5,1,10,30,0,+8", ReceivedAllConcatSMS := "1", ConcatSMSTotal := "2",
    ConcatSMSReceived := "x", SMSClass := "" }

/-- A record whose year and class are digit strings beyond the `int` range. -/
def overflowExample : ZTEMessage :=
  { dateExample with Date := "99999999999999999999,5,1,10,30,0",
                     SMSClass := "99999999999999999999" }

/-- A record whose date has three components only. -/
def shortDateExample : ZTEMessage := { dateExample with Date := "23,5,1" }

/-- A query that carries `perPage=5000` and nothing else. -/
def perPageQuery : String → List String := fun key => if key = "perPage" then ["5000"] else []

/-- A device that announces hash mode 2, hands out the nonce "n0" and answers
the login POST with status 200 and result "3". -/
def badPasswordDevice : Device :=
  { getNumericConfig := fun _ => .ok 2, getLoginLD := .ok "n0", newRequest := .ok (),
    Do := fun _ => .ok ⟨200, .ok "3"⟩ }

theorem digitsFrom_cons (n : Nat) (c : Char) (cs : List Char) :
    digitsFrom n (c :: cs) = digitsFrom (n * 10 + (c.toNat - 48)) cs := rfl

theorem le_digitsFrom (ds : List Char) : ∀ n, n ≤ digitsFrom n ds := by
  induction ds with
  | nil => intro n; exact Nat.le_refl n
  | cons c cs ih =>
    intro n
    rw [digitsFrom_cons]
    have := ih (n * 10 + (c.toNat - 48))
    omega

theorem isDigit_sub_le {c : Char} (h : isDigit c = true) : c.toNat - 48 ≤ 9 := by
  simp only [isDigit, Bool.and_eq_true, decide_eq_true_eq] at h
  omega

/-- What the digit loop of `ParseUint` computes: a range error as soon as the
leading digits leave 64 bits, else a syntax error at the first character that
is not a digit, else the value. -/
theorem parseUintLoop_eq (s : List Char) : ∀ n, n ≤ maxUint64 →
    parseUintLoop s n =
      if digitsFrom n (s.takeWhile isDigit) > maxUint64 then (maxUint64, some .ErrRange)
      else if s.dropWhile isDigit = [] then (digitsFrom n s, none)
      else (0, some .ErrSyntax) := by
  induction s with
  | nil =>
    intro n hn
    have : ¬ n > maxUint64 := by omega
    simp [parseUintLoop, digitsFrom, this]
  | cons c cs ih =>
    intro n hn
    by_cases hc : isDigit c = true
    · have hd := isDigit_sub_le hc
      simp only [parseUintLoop, hc, if_true, List.takeWhile_cons, List.dropWhile_cons,
        digitsFrom_cons]
      have hmono := le_digitsFrom (cs.takeWhile isDigit) (n * 10 + (c.toNat - 48))
      by_cases h1 : n ≥ maxUint64 / 10 + 1
      · have : digitsFrom (n * 10 + (c.toNat - 48)) (cs.takeWhile isDigit) > maxUint64 := by
          simp only [maxUint64] at h1 ⊢; omega
        simp only [h1, if_true, this]
      · by_cases h2 : n * 10 + (c.toNat - 48) > maxUint64
        · have h3 : (n * 10 + (c.toNat - 48)) % 2 ^ 64 < n * 10 := by
            simp only [maxUint64] at h1 h2; omega
          have : digitsFrom (n * 10 + (c.toNat - 48)) (cs.takeWhile isDigit) > maxUint64 := by
            omega
          simp only [h1, if_false, if_true, this, h3, true_or]
        · have h3 : (n * 10 + (c.toNat - 48)) % 2 ^ 64 = n * 10 + (c.toNat - 48) := by
            simp only [maxUint64] at h2; omega
          have h4 : ¬ (n * 10 + (c.toNat - 48) < n * 10 ∨ n * 10 + (c.toNat - 48) > maxUint64) := by
            omega
          simp only [h1, if_false, h3, h4]
          exact ih _ (by omega)
    · have hc' : isDigit c = false := by simpa using hc
      have : ¬ n > maxUint64 := by omega
      simp [parseUintLoop, hc', digitsFrom, this]

theorem atoiFastLoop_eq (s : List Char) : ∀ n : Nat,
    atoiFastLoop s (n : Int) =
      if s.dropWhile isDigit = [] then some (digitsFrom n s : Int) else none := by
  induction s with
  | nil => intro n; simp [atoiFastLoop, digitsFrom]
  | cons c cs ih =>
    intro n
    by_cases hc : isDigit c = true
    · have h := ih (n * 10 + (c.toNat - 48))
      simp only [atoiFastLoop, hc, if_true, List.dropWhile_cons, digitsFrom_cons]
      rw [← h]
      congr 1
    · have hc' : isDigit c = false := by simpa using hc
      simp [atoiFastLoop, hc']

theorem dropWhile_isDigit_eq_nil (s : List Char) :
    s.dropWhile isDigit = [] ↔ s.all isDigit = true := by
  simp [List.dropWhile_eq_nil_iff]

theorem takeWhile_isDigit_of_all {s : List Char} (h : s.all isDigit = true) :
    s.takeWhile isDigit = s := by
  rw [List.takeWhile_eq_self_iff]
  simpa using h

theorem digitsFrom_lt (ds : List Char) : ∀ n, ds.all isDigit = true →
    digitsFrom n ds < (n + 1) * 10 ^ ds.length := by
  induction ds with
  | nil => intro n _; simp [digitsFrom]
  | cons c cs ih =>
    intro n h
    simp only [List.all_cons, Bool.and_eq_true] at h
    have hd := isDigit_sub_le h.1
    have := ih (n * 10 + (c.toNat - 48)) h.2
    rw [digitsFrom_cons, List.length_cons, pow_succ]
    calc digitsFrom (n * 10 + (c.toNat - 48)) cs
        < (n * 10 + (c.toNat - 48) + 1) * 10 ^ cs.length := this
      _ ≤ ((n + 1) * 10) * 10 ^ cs.length := Nat.mul_le_mul_right _ (by omega)
      _ = (n + 1) * (10 ^ cs.length * 10) := by ring

theorem length_le_len (s : List Char) : s.length ≤ len s := by
  induction s with
  | nil => simp [len]
  | cons c cs ih =>
    have := Char.utf8Size_pos c
    simp only [len, List.map_cons, List.sum_cons, List.length_cons] at ih ⊢
    omega

theorem ParseUint_of_ne_nil {b : List Char} (h : b ≠ []) : ParseUint b = parseUintLoop b 0 := by
  cases b with
  | nil => exact absurd rfl h
  | cons _ _ => rfl

theorem ParseInt_eq (s : List Char) : ParseInt s = atoiSpec s := by
  cases s with
  | nil => rfl
  | cons c cs =>
    have hb : unsignedPart (c :: cs) = if c = '+' ∨ c = '-' then cs else c :: cs := rfl
    have hn : isNegative (c :: cs) = decide (c = '-') := rfl
    simp only [ParseInt, atoiSpec, leadingValue, IsDecimal, decimalValue, hb, hn]
    generalize (if c = '+' ∨ c = '-' then cs else c :: cs) = b
    by_cases hb0 : b = []
    · subst hb0; simp [ParseUint]
    · rw [ParseUint_of_ne_nil hb0, parseUintLoop_eq b 0 (by simp [maxUint64])]
      by_cases h1 : digitsFrom 0 (b.takeWhile isDigit) > maxUint64
      · simp only [if_pos h1, if_neg hb0]
        by_cases hneg : c = '-' <;> simp [hneg, intSize, maxUint64, minInt, maxInt]
      · by_cases h2 : b.dropWhile isDigit = []
        · have hall := (dropWhile_isDigit_eq_nil b).1 h2
          have htw := takeWhile_isDigit_of_all hall
          have hne : b.isEmpty = false := by cases b with
            | nil => exact absurd rfl hb0
            | cons _ _ => rfl
          simp only [if_neg h1, if_pos h2, if_neg hb0, hall, hne]
          rw [htw] at h1
          simp only [maxUint64] at h1
          by_cases hneg : c = '-'
          · simp only [hneg, intSize, minInt, maxInt]
            split_ifs <;> simp_all <;> omega
          · simp only [hneg, intSize, minInt, maxInt]
            split_ifs <;> simp_all <;> omega
        · have hall : b.all isDigit = false := by
            rw [← Bool.not_eq_true, ← dropWhile_isDigit_eq_nil]; exact h2
          simp only [if_neg h1, if_neg h2, if_neg hb0, hall]
          simp

theorem unsignedPart_length_le (s : List Char) : (unsignedPart s).length ≤ s.length := by
  cases s with
  | nil => simp [unsignedPart]
  | cons c cs =>
    simp only [unsignedPart]
    split_ifs <;> simp

theorem leadingValue_lt_of_short {s : List Char} (h : len s < 19) :
    leadingValue s < 10 ^ 18 := by
  have h1 := length_le_len s
  have h2 := unsignedPart_length_le s
  have h3 : ((unsignedPart s).takeWhile isDigit).length ≤ (unsignedPart s).length :=
    (List.takeWhile_sublist _).length_le
  have hall : ((unsignedPart s).takeWhile isDigit).all isDigit = true := by
    rw [List.all_eq_true]
    intro x hx
    exact List.mem_takeWhile_imp hx
  have h4 := digitsFrom_lt _ 0 hall
  have h5 : 10 ^ ((unsignedPart s).takeWhile isDigit).length ≤ 10 ^ 18 :=
    Nat.pow_le_pow_right (by decide) (by omega)
  simp only [leadingValue]
  omega

theorem Atoi_eq (s : List Char) : Atoi s = atoiSpec s := by
  unfold Atoi
  split_ifs with hlen
  · have hlv := leadingValue_lt_of_short hlen.2
    cases s with
    | nil => rfl
    | cons c cs =>
      have hb : unsignedPart (c :: cs) = if c = '-' ∨ c = '+' then cs else c :: cs := by
        simp only [unsignedPart, or_comm]
      have hn : isNegative (c :: cs) = decide (c = '-') := rfl
      simp only [atoiSpec, leadingValue, IsDecimal, decimalValue, hb, hn] at hlv ⊢
      have hsign : ¬ (c = '-' ∨ c = '+') → (if c = '-' ∨ c = '+' then cs else c :: cs) ≠ [] := by
        intro h; simp [h]
      generalize (if c = '-' ∨ c = '+' then cs else c :: cs) = b at hlv hsign ⊢
      have hmax : ¬ digitsFrom 0 (b.takeWhile isDigit) > maxUint64 := by
        simp only [maxUint64]; omega
      by_cases hb0 : b = []
      · subst hb0
        have hs : c = '-' ∨ c = '+' := by
          by_contra h; exact hsign h rfl
        simp [hs]
      · have hlen1 : ¬ b.length < 1 := by
          cases b with
          | nil => exact absurd rfl hb0
          | cons _ _ => simp
        have hne : b.isEmpty = false := by
          cases b with
          | nil => exact absurd rfl hb0
          | cons _ _ => rfl
        have hfast := atoiFastLoop_eq b 0
        simp only [Nat.cast_zero] at hfast
        simp only [hlen1, and_false, if_false, hfast, if_neg hb0, if_neg hmax, hne]
        by_cases h2 : b.dropWhile isDigit = []
        · have hall := (dropWhile_isDigit_eq_nil b).1 h2
          rw [takeWhile_isDigit_of_all hall] at hlv
          simp only [if_pos h2, hall, minInt, maxInt]
          have hd : (digitsFrom 0 b : Int) < 10 ^ 18 := by exact_mod_cast hlv
          have hd0 : (0 : Int) ≤ (digitsFrom 0 b : Int) := Int.natCast_nonneg _
          clear hmax hlen hfast hlen1 hne hsign hlv hb hn
          generalize (digitsFrom 0 b : Int) = d at hd hd0
          have e1 : ¬ (-d < -2 ^ 63) := by norm_num at hd ⊢; omega
          have e2 : ¬ (-d > 2 ^ 63 - 1) := by norm_num at hd ⊢; omega
          have e3 : ¬ (d < -2 ^ 63) := by norm_num at hd ⊢; omega
          have e4 : ¬ (d > 2 ^ 63 - 1) := by norm_num at hd ⊢; omega
          by_cases hneg : c = '-'
          · simp only [hneg, if_true, decide_True, Bool.not_false, Bool.and_true, if_false,
              if_neg e1, if_neg e2]
            simp
          · norm_num at hd
            simp only [hneg, if_true, decide_False, Bool.not_false, Bool.and_true, if_false]
            norm_num
            rw [if_neg (by omega), if_neg (by omega)]
        · have hall : b.all isDigit = false := by
            rw [← Bool.not_eq_true, ← dropWhile_isDigit_eq_nil]; exact h2
          simp only [if_neg h2, hall]
          simp
  · exact ParseInt_eq s

theorem Atoi_of_not_decimal {s : List Char} (hd : IsDecimal s = false) :
    Atoi s =
      if leadingValue s > maxUint64 then
        (if isNegative s then minInt else maxInt, some .ErrRange)
      else (0, some .ErrSyntax) := by
  rw [Atoi_eq]
  unfold atoiSpec
  by_cases h0 : unsignedPart s = []
  · have : ¬ leadingValue s > maxUint64 := by
      simp [leadingValue, h0, digitsFrom]
    simp only [if_pos h0, if_neg this]
  · simp only [if_neg h0, hd, if_true]

theorem Atoi_of_decimal {s : List Char} (hd : IsDecimal s = true) :
    Atoi s =
      if decimalValue s < minInt then (minInt, some .ErrRange)
      else if decimalValue s > maxInt then (maxInt, some .ErrRange)
      else (decimalValue s, none) := by
  rw [Atoi_eq]
  unfold atoiSpec
  have hd2 := hd
  simp only [IsDecimal, Bool.and_eq_true, Bool.not_eq_true', List.isEmpty_eq_false] at hd2
  have h0 : unsignedPart s ≠ [] := by
    intro h; rw [h] at hd2; simp at hd2
  have hlv : leadingValue s = digitsFrom 0 (unsignedPart s) := by
    simp only [leadingValue, takeWhile_isDigit_of_all hd2.2]
  simp only [if_neg h0, hd, Bool.true_eq_false, if_false]
  by_cases h1 : leadingValue s > maxUint64
  · rw [if_pos h1]
    rw [hlv] at h1
    have h1' : (digitsFrom 0 (unsignedPart s) : Int) > 2 ^ 64 - 1 := by
      simp only [maxUint64] at h1
      have : digitsFrom 0 (unsignedPart s) ≥ 2 ^ 64 := by omega
      have : (digitsFrom 0 (unsignedPart s) : Int) ≥ 2 ^ 64 := by exact_mod_cast this
      omega
    by_cases hneg : isNegative s = true
    · have : decimalValue s < minInt := by
        simp only [decimalValue, hneg, if_true, minInt]; omega
      simp only [hneg, if_true, if_pos this]
    · have hv : decimalValue s = (digitsFrom 0 (unsignedPart s) : Int) := by
        simp only [decimalValue, hneg, if_false]; rfl
      have a1 : ¬ decimalValue s < minInt := by
        rw [hv]; simp only [minInt]; omega
      have a2 : decimalValue s > maxInt := by
        rw [hv]; simp only [maxInt]; omega
      simp only [hneg, if_false, if_neg a1, if_pos a2]
      rfl
  · rw [if_neg h1]

theorem Atoi_ok_iff (s : List Char) : (Atoi s).2 = none ↔ ParsesAsInt s := by
  unfold ParsesAsInt
  by_cases hd : IsDecimal s = true
  · rw [Atoi_of_decimal hd]
    split_ifs with h1 h2
    · simp [hd]; intro h; omega
    · simp [hd]; intro _; omega
    · simp [hd]; omega
  · have hd' : IsDecimal s = false := by simpa using hd
    rw [Atoi_of_not_decimal hd']
    split_ifs <;> simp [hd']

theorem Atoi_of_parses {s : List Char} (h : ParsesAsInt s) : Atoi s = (decimalValue s, none) := by
  rw [Atoi_of_decimal h.1, if_neg (by have := h.2.1; omega), if_neg (by have := h.2.2; omega)]

theorem fromHexChar_eq_none_iff (c : Char) : fromHexChar c = none ↔ isHexDigit c = false := by
  unfold fromHexChar isHexDigit
  split_ifs with h1 h2 h3 <;> simp <;> omega

theorem DecodeString_ok_iff : ∀ s : List Char,
    (∃ bs, DecodeString s = .ok bs) ↔ IsHexString s
  | [] => by simp [DecodeString, IsHexString]
  | [p] => by
    cases h : fromHexChar p <;> simp [DecodeString, h, IsHexString]
  | p :: q :: rest => by
    have ih := DecodeString_ok_iff rest
    have hlen : (p :: q :: rest).length % 2 = rest.length % 2 := by
      simp only [List.length_cons]; omega
    simp only [IsHexString, hlen, List.mem_cons, forall_eq_or_imp] at ih ⊢
    cases hp : fromHexChar p with
    | none =>
      have := (fromHexChar_eq_none_iff p).1 hp
      simp [DecodeString, hp, this]
    | some a =>
      have hp' : isHexDigit p = true := by
        by_contra hc
        have := (fromHexChar_eq_none_iff p).2 (by simpa using hc)
        rw [hp] at this; cases this
      cases hq : fromHexChar q with
      | none =>
        have := (fromHexChar_eq_none_iff q).1 hq
        simp [DecodeString, hp, hq, this]
      | some b =>
        have hq' : isHexDigit q = true := by
          by_contra hc
          have := (fromHexChar_eq_none_iff q).2 (by simpa using hc)
          rw [hq] at this; cases this
        cases hr : DecodeString rest with
        | error e =>
          have : ¬ (rest.length % 2 = 0 ∧ ∀ c ∈ rest, isHexDigit c = true) := by
            rw [← ih, hr]; simp
          simp only [DecodeString, hp, hq, hr, hp', hq', true_and]
          simpa using this
        | ok bs =>
          have : rest.length % 2 = 0 ∧ ∀ c ∈ rest, isHexDigit c = true := by
            rw [← ih, hr]; simp
          simp only [DecodeString, hp, hq, hr, hp', hq', true_and]
          simpa using this

theorem NewZTESMS_ok_iff (clock : Nat) (msg : ZTEMessage) :
    (NewZTESMS clock msg).2 = none ↔
      ParsesAsInt msg.ID.data ∧ IsHexString msg.Content.data := by
  rw [← Atoi_ok_iff, ← DecodeString_ok_iff]
  unfold NewZTESMS
  rcases hA : Atoi msg.ID.data with ⟨id, _ | err⟩
  · cases hD : DecodeString msg.Content.data with
    | error e => simp
    | ok bs => simp
  · simp

theorem decimalValue_neg_of_lt {s : List Char} (h : decimalValue s < minInt) :
    isNegative s = true := by
  by_contra hn
  have hv : decimalValue s = (digitsFrom 0 (unsignedPart s) : Int) := by
    simp only [decimalValue, hn, if_false]; rfl
  rw [hv] at h
  simp only [minInt] at h
  omega

theorem decimalValue_pos_of_gt {s : List Char} (h : decimalValue s > maxInt) :
    isNegative s = false := by
  by_contra hn
  have hn' : isNegative s = true := by simpa using hn
  simp only [decimalValue, hn', if_true, maxInt] at h
  omega

theorem atoiValue_eq_lenientInt (s : List Char) : atoiValue s = lenientInt s := by
  unfold atoiValue lenientInt
  by_cases hp : ParsesAsInt s
  · rw [Atoi_of_parses hp, if_pos hp]
  · rw [if_neg hp]
    by_cases hd : IsDecimal s = true
    · rw [Atoi_of_decimal hd, if_pos (Or.inl hd)]
      by_cases h1 : decimalValue s < minInt
      · rw [if_pos h1, decimalValue_neg_of_lt h1, if_pos rfl]
      · rw [if_neg h1]
        by_cases h2 : decimalValue s > maxInt
        · rw [if_pos h2, decimalValue_pos_of_gt h2]; rfl
        · exact absurd ⟨hd, by omega, by omega⟩ hp
    · have hd' : IsDecimal s = false := by simpa using hd
      rw [Atoi_of_not_decimal hd']
      by_cases h1 : leadingValue s > maxUint64
      · rw [if_pos h1, if_pos (Or.inr h1)]
      · rw [if_neg h1, if_neg (by simp [hd', h1])]

/-- The record `NewZTESMS` returns when it returns no error. -/
theorem NewZTESMS_of_ok {clock : Nat} {msg : ZTEMessage} (h : (NewZTESMS clock msg).2 = none) :
    ∃ bs, DecodeString msg.Content.data = .ok bs ∧
      (NewZTESMS clock msg).1 =
        { ID := decimalValue msg.ID.data, Number := msg.Number,
          Content := runesToString (utf16Decode (contentUTF16 bs)), Tag := msg.Tag,
          Date := parseDate clock msg.Date,
          ReceivedAllConcatSMS := msg.ReceivedAllConcatSMS == "1",
          ConcatSMSTotal := atoiValue msg.ConcatSMSTotal.data,
          ConcatSMSReceived := atoiValue msg.ConcatSMSReceived.data,
          SMSClass := atoiValue msg.SMSClass.data, Read := msg.Tag != "1" } := by
  have hp := ((NewZTESMS_ok_iff clock msg).1 h).1
  have hA := Atoi_of_parses hp
  unfold NewZTESMS at h ⊢
  rw [hA] at h ⊢
  cases hD : DecodeString msg.Content.data with
  | error e => rw [hD] at h; simp at h
  | ok bs => exact ⟨bs, rfl, rfl⟩

/-- The record and error `NewZTESMS` returns when it fails do not involve the
clock. -/
theorem NewZTESMS_of_err {clock : Nat} {msg : ZTEMessage} (h : (NewZTESMS clock msg).2 ≠ none)
    (clock' : Nat) : NewZTESMS clock' msg = NewZTESMS clock msg := by
  unfold NewZTESMS at h ⊢
  rcases hA : Atoi msg.ID.data with ⟨id, _ | err⟩
  · rw [hA] at h
    cases hD : DecodeString msg.Content.data with
    | error e => rfl
    | ok bs => rw [hD] at h; simp at h
  · rfl

theorem NewZTESMS_err_indep (clock clock' : Nat) (msg msg' : ZTEMessage)
    (hid : msg'.ID = msg.ID) (hc : msg'.Content = msg.Content) :
    (NewZTESMS clock' msg').2 = (NewZTESMS clock msg).2 := by
  unfold NewZTESMS
  rw [hid, hc]
  rcases hA : Atoi msg.ID.data with ⟨id, _ | err⟩
  · cases hD : DecodeString msg.Content.data with
    | error e => rfl
    | ok bs => rfl
  · rfl

theorem fromHexChar_hextable : ∀ d : Fin 16, fromHexChar (hextable.getD d.val '0') = some d.val := by
  decide

theorem fromHexChar_upper_hextable : ∀ d : Fin 16,
    fromHexChar
      (if 97 ≤ (hextable.getD d.val '0').toNat ∧ (hextable.getD d.val '0').toNat ≤ 122 then
        Char.ofNat ((hextable.getD d.val '0').toNat - 32) else hextable.getD d.val '0') =
      some d.val := by
  decide

theorem hexEncode_cons (upper : Bool) (v : Nat) (bs : List Nat) :
    hexEncode upper (v :: bs) =
      (if upper then ToUpper [hextable.getD (v >>> 4) '0', hextable.getD (v &&& 0x0f) '0']
        else [hextable.getD (v >>> 4) '0', hextable.getD (v &&& 0x0f) '0']) ++
        hexEncode upper bs := by
  cases upper <;> simp [hexEncode, EncodeToString, ToUpper]

theorem DecodeString_hexEncode (upper : Bool) : ∀ bytes : List Nat, (∀ b ∈ bytes, b < 256) →
    DecodeString (hexEncode upper bytes) = .ok bytes := by
  intro bytes
  induction bytes with
  | nil => intro _; cases upper <;> rfl
  | cons v bs ih =>
    intro h
    have hv : v < 256 := h v (List.mem_cons_self _ _)
    have ih := ih (fun b hb => h b (List.mem_cons_of_mem _ hb))
    have h1 : v >>> 4 < 16 := by rw [Nat.shiftRight_eq_div_pow]; omega
    have h2 : v &&& 0x0f < 16 := by 
      have : v &&& 0x0f = v % 2 ^ 4 := Nat.and_pow_two_sub_one_eq_mod v 4
      omega
    have hjoin : ((v >>> 4) <<< 4) ||| (v &&& 0x0f) = v := by
      have e1 : v &&& 0x0f = v % 2 ^ 4 := Nat.and_pow_two_sub_one_eq_mod v 4
      rw [Nat.shiftRight_eq_div_pow, Nat.shiftLeft_eq, e1, Nat.mul_comm,
        ← Nat.mul_add_lt_is_or (Nat.mod_lt _ (by decide))]
      exact Nat.div_add_mod v (2 ^ 4)
    rw [hexEncode_cons]
    cases upper
    · have a := fromHexChar_hextable ⟨v >>> 4, h1⟩
      have b := fromHexChar_hextable ⟨v &&& 0x0f, h2⟩
      simp only at a b
      simp only [Bool.false_eq_true, if_false, List.cons_append, List.nil_append]
      simp only [DecodeString, a, b, ih, hjoin]
    · have a := fromHexChar_upper_hextable ⟨v >>> 4, h1⟩
      have b := fromHexChar_upper_hextable ⟨v &&& 0x0f, h2⟩
      simp only at a b
      simp only [if_true, ToUpper, List.map_cons, List.map_nil, List.cons_append, List.nil_append]
      simp only [DecodeString, a, b, ih, hjoin]

theorem contentUTF16_bigEndianBytes (extra : List Nat) (hx : extra.length ≤ 1) :
    ∀ units : List Nat, (∀ u ∈ units, u < 65536) →
      contentUTF16 (bigEndianBytes units ++ extra) = units := by
  intro units
  induction units with
  | nil =>
    intro _
    match extra, hx with
    | [], _ => rfl
    | [_], _ => rfl
  | cons u us ih =>
    intro h
    have hu : u < 65536 := h u (List.mem_cons_self _ _)
    have ih := ih (fun b hb => h b (List.mem_cons_of_mem _ hb))
    have hjoin : (((u / 256) <<< 8) % 2 ^ 16) ||| (u % 256) = u := by
      have e : ((u / 256) <<< 8) % 2 ^ 16 = 2 ^ 8 * (u / 256) := by
        rw [Nat.shiftLeft_eq]; omega
      rw [e, ← Nat.mul_add_lt_is_or (Nat.mod_lt _ (by decide))]
      omega
    have hb : bigEndianBytes (u :: us) ++ extra =
        (u / 256) :: (u % 256) :: (bigEndianBytes us ++ extra) := by
      simp [bigEndianBytes]
    rw [hb, contentUTF16, hjoin, ih]

theorem utf16Decode_cons_plain (r : Nat) (l : List Nat) (h : r < 0xd800 ∨ 0xe000 ≤ r) :
    utf16Decode (r :: l) = r :: utf16Decode l := by
  cases l with
  | nil => simp [utf16Decode, h]
  | cons r2 rest => simp [utf16Decode, h]

theorem utf16Decode_cons_pair (r r2 : Nat) (l : List Nat)
    (h1 : 0xd800 ≤ r ∧ r < 0xdc00) (h2 : 0xdc00 ≤ r2 ∧ r2 < 0xe000) :
    utf16Decode (r :: r2 :: l) =
      ((((r - 0xd800) <<< 10) ||| (r2 - 0xdc00)) + 0x10000) :: utf16Decode l := by
  have hn : ¬ (r < 0xd800 ∨ 0xe000 ≤ r) := by omega
  have hy : 0xd800 ≤ r ∧ r < 0xdc00 ∧ 0xdc00 ≤ r2 ∧ r2 < 0xe000 := ⟨h1.1, h1.2, h2.1, h2.2⟩
  rw [utf16Decode, if_neg hn, if_pos hy]

theorem char_toNat_scalar (c : Char) :
    c.toNat < 0xd800 ∨ (0xdfff < c.toNat ∧ c.toNat < 0x110000) := c.valid

theorem utf16Decode_utf16Encode (text : List Char) :
    utf16Decode (utf16Encode text) = text.map Char.toNat := by
  induction text with
  | nil => rfl
  | cons c cs ih =>
    have hv := char_toNat_scalar c
    have hcons : utf16Encode (c :: cs) =
        (if c.toNat < 0x10000 then [c.toNat]
          else [0xd800 + (c.toNat - 0x10000) / 0x400, 0xdc00 + (c.toNat - 0x10000) % 0x400]) ++
          utf16Encode cs := by
      simp [utf16Encode]
    rw [hcons]
    by_cases hs : c.toNat < 0x10000
    · rw [if_pos hs, List.singleton_append, utf16Decode_cons_plain _ _ (by omega), ih,
        List.map_cons]
    · rw [if_neg hs, List.cons_append, List.singleton_append,
        utf16Decode_cons_pair _ _ _ (by omega) (by omega), ih, List.map_cons]
      congr 1
      have e1 : 0xd800 + (c.toNat - 0x10000) / 0x400 - 0xd800 = (c.toNat - 0x10000) / 0x400 := by
        omega
      have e2 : 0xdc00 + (c.toNat - 0x10000) % 0x400 - 0xdc00 = (c.toNat - 0x10000) % 0x400 := by
        omega
      rw [e1, e2, Nat.shiftLeft_eq, Nat.mul_comm,
        ← Nat.mul_add_lt_is_or (i := 10) (Nat.mod_lt _ (by decide))]
      omega

theorem runeToChar_toNat (c : Char) : runeToChar c.toNat = c := by
  have hv : c.toNat.isValidChar := c.valid
  simp only [runeToChar, hv, if_true, Char.ofNat_toNat]

theorem runesToString_map_toNat (text : List Char) :
    runesToString (text.map Char.toNat) = String.mk text := by
  simp only [runesToString, List.map_map]
  congr 1
  induction text with
  | nil => rfl
  | cons c cs ih => simp [runeToChar_toNat, ih]

theorem utf16Encode_lt (text : List Char) : ∀ u ∈ utf16Encode text, u < 65536 := by
  intro u hu
  simp only [utf16Encode, List.mem_flatMap] at hu
  obtain ⟨c, _, hc⟩ := hu
  have hv := char_toNat_scalar c
  split_ifs at hc with hs
  · simp only [List.mem_singleton] at hc; omega
  · simp only [List.mem_cons, List.mem_singleton, List.not_mem_nil, or_false] at hc
    omega

theorem bigEndianBytes_lt (units : List Nat) : ∀ b ∈ bigEndianBytes units, (∀ u ∈ units, u < 65536) → b < 256 := by
  intro b hb hu
  simp only [bigEndianBytes, List.mem_flatMap] at hb
  obtain ⟨u, hmem, hc⟩ := hb
  have := hu u hmem
  simp only [List.mem_cons, List.mem_singleton, List.not_mem_nil, or_false] at hc
  omega

theorem decodeLoop_eq (clock : Nat → Nat) : ∀ (msgs : List ZTEMessage) (i : Nat) (acc : List ZTESMS),
    decodeLoop clock i msgs acc =
      acc ++ ((msgs.enumFrom i).filter (fun p => (NewZTESMS (clock p.1) p.2).2 = none)).map
        (fun p => (NewZTESMS (clock p.1) p.2).1) := by
  intro msgs
  induction msgs with
  | nil => intro i acc; simp [decodeLoop]
  | cons m ms ih =>
    intro i acc
    rcases h : NewZTESMS (clock i) m with ⟨sms, _ | err⟩
    · simp [decodeLoop, List.enumFrom_cons, h, ih]
    · simp [decodeLoop, List.enumFrom_cons, h, ih]

/-- C3. The decoding loop of `GetSMS` returns, without error, the records on
which `NewZTESMS` succeeds, decoded, in their original order; a batch of a
record with an unparsable id followed by a valid record gives the valid record
alone. -/
theorem GetSMS_keeps_decodable_in_order (clock : Nat → Nat) (msgs : List ZTEMessage) :
    GetSMS clock (.ok msgs) =
        (((msgs.enum).filter (fun p => (NewZTESMS (clock p.1) p.2).2 = none)).map
          (fun p => (NewZTESMS (clock p.1) p.2).1), none) ∧
      (∀ bad good : ZTEMessage, ¬ ParsesAsInt bad.ID.data → ParsesAsInt good.ID.data →
        IsHexString good.Content.data →
        GetSMS clock (.ok [bad, good]) = ([(NewZTESMS (clock 1) good).1], none) ∧
          (GetSMS clock (.ok [bad, good])).1.length = 1) := by
  have key : ∀ l, GetSMS clock (.ok l) =
      (((l.enum).filter (fun p => (NewZTESMS (clock p.1) p.2).2 = none)).map
        (fun p => (NewZTESMS (clock p.1) p.2).1), none) := by
    intro l
    simp only [GetSMS, decodeLoop_eq, List.nil_append, List.enum]
  refine ⟨key msgs, ?_⟩
  intro bad good hbad hid hhex
  have h1 : ¬ (NewZTESMS (clock 0) bad).2 = none := by
    rw [NewZTESMS_ok_iff]; exact fun h => hbad h.1
  have h2 : (NewZTESMS (clock 1) good).2 = none := by
    rw [NewZTESMS_ok_iff]; exact ⟨hid, hhex⟩
  rw [key]
  simp [List.enum, List.enumFrom_cons, h1, h2]

/-- Witness for C3: a record with the id "x1" followed by the example record. -/
theorem GetSMS_keeps_decodable_in_order_witness :
    GetSMS (fun _ => 0) (.ok [{ dateExample with ID := "x1" }, dateExample]) =
      ([(NewZTESMS 0 dateExample).1], none) :=
  ((GetSMS_keeps_decodable_in_order (fun _ => 0) []).2 { dateExample with ID := "x1" } dateExample
    (by decide) (by decide) (by decide)).1

/-- C1. `NewZTESMS` returns an error exactly when the id does not parse as a
base-10 integer or the content is not a valid hexadecimal string; the error
depends on the id and the content only, so two records with the same id and
content both decode or both fail, whatever their other fields and the clock. -/
theorem NewZTESMS_error_iff_id_or_content (clock : Nat) (msg : ZTEMessage) :
    ((NewZTESMS clock msg).2 ≠ none ↔
        (¬ ParsesAsInt msg.ID.data ∨ ¬ IsHexString msg.Content.data)) ∧
      (∀ (clock' : Nat) (msg' : ZTEMessage), msg'.ID = msg.ID → msg'.Content = msg.Content →
        (NewZTESMS clock' msg').2 = (NewZTESMS clock msg).2) := by
  constructor
  · rw [Ne, NewZTESMS_ok_iff]
    by_cases h1 : ParsesAsInt msg.ID.data <;> by_cases h2 : IsHexString msg.Content.data <;>
      simp [h1, h2]
  · intro clock' msg' hid hc
    exact NewZTESMS_err_indep clock clock' msg msg' hid hc

/-- Witness for C1: the example record with other date, tag, number and class. -/
theorem NewZTESMS_error_iff_id_or_content_witness :
    (NewZTESMS 5 { dateExample with Date := "", Tag := "0", Number := "", SMSClass := "z" }).2 =
      (NewZTESMS 0 dateExample).2 :=
  (NewZTESMS_error_iff_id_or_content 0 dateExample).2 5
    { dateExample with Date := "", Tag := "0", Number := "", SMSClass := "z" } rfl rfl

/-- C10. On a record that decodes, the read flag is false exactly when the tag
is "1", and the tag and the sender are the raw tag and number, unchanged. -/
theorem read_flag_and_passthrough (clock : Nat) (msg : ZTEMessage)
    (hok : (NewZTESMS clock msg).2 = none) :
    ((NewZTESMS clock msg).1.Read = false ↔ msg.Tag = "1") ∧
      (NewZTESMS clock msg).1.Tag = msg.Tag ∧ (NewZTESMS clock msg).1.Number = msg.Number := by
  obtain ⟨bs, _, h⟩ := NewZTESMS_of_ok hok
  rw [h]
  simp

/-- Witness for C10: the example record, whose tag is "1". -/
theorem read_flag_and_passthrough_witness :
    (NewZTESMS 0 dateExample).2 = none ∧
      (((NewZTESMS 0 dateExample).1.Read = false ↔ dateExample.Tag = "1") ∧
        (NewZTESMS 0 dateExample).1.Tag = dateExample.Tag ∧
        (NewZTESMS 0 dateExample).1.Number = dateExample.Number) :=
  ⟨by decide, read_flag_and_passthrough 0 dateExample (by decide)⟩

/-- C9, as stated, fails: a class string that is out of the `int` range does
not parse, the record decodes, and the class is `2 ^ 63 - 1`, not 0. -/
theorem sms_class_out_of_range_not_zero :
    (NewZTESMS 0 overflowExample).2 = none ∧ ¬ ParsesAsInt overflowExample.SMSClass.data ∧
      (NewZTESMS 0 overflowExample).1.SMSClass = 9223372036854775807 ∧
      (NewZTESMS 0 overflowExample).1.SMSClass ≠ 0 := by
  decide

/-- C9, amended. On a record that decodes, the part count, the parts received
and the class are each the lenient reading of their raw string: its integer
value when it parses, the nearest bound of the `int` range when it is a
literal out of range or its leading digits exceed `2 ^ 64 - 1`, and 0
otherwise; the completeness flag is true exactly when its raw string is "1". -/
theorem concat_fields_lenient (clock : Nat) (msg : ZTEMessage)
    (hok : (NewZTESMS clock msg).2 = none) :
    (NewZTESMS clock msg).1.ConcatSMSTotal = lenientInt msg.ConcatSMSTotal.data ∧
      (NewZTESMS clock msg).1.ConcatSMSReceived = lenientInt msg.ConcatSMSReceived.data ∧
      (NewZTESMS clock msg).1.SMSClass = lenientInt msg.SMSClass.data ∧
      ((NewZTESMS clock msg).1.ReceivedAllConcatSMS = true ↔ msg.ReceivedAllConcatSMS = "1") := by
  obtain ⟨bs, _, h⟩ := NewZTESMS_of_ok hok
  rw [h]
  simp [atoiValue_eq_lenientInt]

/-- Witness for C9: the example record, with total "2", received "x" and class "". -/
theorem concat_fields_lenient_witness :
    (NewZTESMS 0 dateExample).2 = none ∧
      (NewZTESMS 0 dateExample).1.ConcatSMSTotal = 2 ∧
      (NewZTESMS 0 dateExample).1.ConcatSMSReceived = 0 ∧
      (NewZTESMS 0 dateExample).1.SMSClass = 0 ∧
      ((NewZTESMS 0 dateExample).1.ReceivedAllConcatSMS = true ↔
        dateExample.ReceivedAllConcatSMS = "1") :=
  have h := concat_fields_lenient 0 dateExample (by decide)
  ⟨by decide, h.1.trans (by decide), h.2.1.trans (by decide), h.2.2.1.trans (by decide), h.2.2.2⟩

theorem getD_take_six (l : List (List Char)) (i : Nat) (hi : i < 6) :
    l.getD i [] = (l.take 6).getD i [] := by
  simp only [List.getD_eq_getElem?_getD, List.getElem?_take, hi, if_true]

theorem parseDate_of_six (clock : Nat) (date : String) (h6 : 6 ≤ (Split date.data).length) :
    parseDate clock date =
      Time.Date (wrapInt (2000 + lenientInt ((Split date.data).getD 0 [])))
        (lenientInt ((Split date.data).getD 1 [])) (lenientInt ((Split date.data).getD 2 []))
        (lenientInt ((Split date.data).getD 3 [])) (lenientInt ((Split date.data).getD 4 []))
        (lenientInt ((Split date.data).getD 5 [])) 0 := by
  have h : (Split date.data).length ≥ 6 := h6
  simp only [parseDate, h, if_true, atoiValue_eq_lenientInt]

theorem parseDate_same_six (clock clock' : Nat) (date date' : String)
    (h6 : 6 ≤ (Split date.data).length)
    (h : (Split date'.data).take 6 = (Split date.data).take 6) :
    parseDate clock' date' = parseDate clock date := by
  have h6' : 6 ≤ (Split date'.data).length := by
    have := congrArg List.length h
    simp only [List.length_take] at this
    omega
  rw [parseDate_of_six clock date h6, parseDate_of_six clock' date' h6']
  simp only [getD_take_six (Split date.data) _ (by decide : 0 < 6),
    getD_take_six (Split date.data) _ (by decide : 1 < 6),
    getD_take_six (Split date.data) _ (by decide : 2 < 6),
    getD_take_six (Split date.data) _ (by decide : 3 < 6),
    getD_take_six (Split date.data) _ (by decide : 4 < 6),
    getD_take_six (Split date.data) _ (by decide : 5 < 6),
    getD_take_six (Split date'.data) _ (by decide : 0 < 6),
    getD_take_six (Split date'.data) _ (by decide : 1 < 6),
    getD_take_six (Split date'.data) _ (by decide : 2 < 6),
    getD_take_six (Split date'.data) _ (by decide : 3 < 6),
    getD_take_six (Split date'.data) _ (by decide : 4 < 6),
    getD_take_six (Split date'.data) _ (by decide : 5 < 6), h]

theorem NewZTESMS_date_of_ok {clock : Nat} {msg : ZTEMessage}
    (hok : (NewZTESMS clock msg).2 = none) :
    (NewZTESMS clock msg).1.Date = parseDate clock msg.Date := by
  obtain ⟨bs, _, h⟩ := NewZTESMS_of_ok hok
  rw [h]

/-- C4, as stated, fails: a year component that is out of the `int` range does
not parse as an integer, yet it does not count as zero: the record decodes and
its timestamp is not the one of year 2000 + 0. -/
theorem date_component_out_of_range_not_zero :
    (NewZTESMS 0 overflowExample).2 = none ∧
      6 ≤ (Split overflowExample.Date.data).length ∧
      ¬ ParsesAsInt ((Split overflowExample.Date.data).getD 0 []) ∧
      (NewZTESMS 0 overflowExample).1.Date = Time.Date (-9223372036854773809) 5 1 10 30 0 0 ∧
      (NewZTESMS 0 overflowExample).1.Date ≠ Time.Date 2000 5 1 10 30 0 0 := by
  decide

/-- C4, amended. On a record that decodes and whose date splits on commas into
at least six components, the timestamp is `time.Date(2000+Y, M, D, h, m, s, 0,
time.Local)` where `Y`, `M`, `D`, `h`, `m`, `s` are the lenient readings of the
first six components (the integer value when the component parses, the nearest
bound of the `int` range when it is out of range, 0 otherwise) and `2000+Y` is
computed on 64-bit integers; components after the sixth are ignored. -/
theorem date_of_six_components (clock : Nat) (msg : ZTEMessage)
    (hok : (NewZTESMS clock msg).2 = none) (h6 : 6 ≤ (Split msg.Date.data).length) :
    (NewZTESMS clock msg).1.Date =
        Time.Date (wrapInt (2000 + lenientInt ((Split msg.Date.data).getD 0 [])))
          (lenientInt ((Split msg.Date.data).getD 1 []))
          (lenientInt ((Split msg.Date.data).getD 2 []))
          (lenientInt ((Split msg.Date.data).getD 3 []))
          (lenientInt ((Split msg.Date.data).getD 4 []))
          (lenientInt ((Split msg.Date.data).getD 5 [])) 0 ∧
      (∀ (clock' : Nat) (msg' : ZTEMessage), (NewZTESMS clock' msg').2 = none →
        (Split msg'.Date.data).take 6 = (Split msg.Date.data).take 6 →
        (NewZTESMS clock' msg').1.Date = (NewZTESMS clock msg).1.Date) := by
  constructor
  · rw [NewZTESMS_date_of_ok hok, parseDate_of_six clock msg.Date h6]
  · intro clock' msg' hok' h
    rw [NewZTESMS_date_of_ok hok, NewZTESMS_date_of_ok hok']
    exact parseDate_same_six clock clock' msg.Date msg'.Date h6 h

/-- Witness for C4: the date "23,5,1,10,30,0,+8" gives 2023, May 1, 10:30:00. -/
theorem date_of_six_components_witness :
    (NewZTESMS 0 dateExample).2 = none ∧ 6 ≤ (Split dateExample.Date.data).length ∧
      dateExample.Date = "23,5,1,10,30,0,+8" ∧
      (NewZTESMS 0 dateExample).1.Date = Time.Date 2023 5 1 10 30 0 0 :=
  ⟨by decide, by decide, rfl,
    (date_of_six_components 0 dateExample (by decide) (by decide)).1.trans (by decide)⟩

/-- C5, as stated, fails: two calls on the same record made at two readings of
the wall clock return different timestamps when the date has fewer than six
components. -/
theorem NewZTESMS_depends_on_clock :
    (NewZTESMS 1 shortDateExample).2 = none ∧ (NewZTESMS 2 shortDateExample).2 = none ∧
      (NewZTESMS 1 shortDateExample).1.Date = Time.Now 1 ∧
      (NewZTESMS 2 shortDateExample).1.Date = Time.Now 2 ∧
      NewZTESMS 1 shortDateExample ≠ NewZTESMS 2 shortDateExample := by
  decide

theorem parseDate_of_short (clock : Nat) (date : String)
    (h : (Split date.data).length < 6) : parseDate clock date = Time.Now clock := by
  have h' : ¬ (Split date.data).length ≥ 6 := by omega
  simp only [parseDate, h', if_false]

/-- C5, amended. Two calls of `NewZTESMS` on the same record, at any two
readings of the wall clock, return the same error and records that agree on
every field other than the timestamp; they return identical results when the
date splits into at least six components, and when the call fails; when the
date splits into fewer than six components, the timestamp of a record that
decodes is the wall-clock time of the call. -/
theorem NewZTESMS_same_up_to_clock (clock clock' : Nat) (msg : ZTEMessage) :
    (NewZTESMS clock' msg).2 = (NewZTESMS clock msg).2 ∧
      { (NewZTESMS clock' msg).1 with Date := Time.Zero } =
        { (NewZTESMS clock msg).1 with Date := Time.Zero } ∧
      (6 ≤ (Split msg.Date.data).length → NewZTESMS clock' msg = NewZTESMS clock msg) ∧
      ((NewZTESMS clock msg).2 ≠ none → NewZTESMS clock' msg = NewZTESMS clock msg) ∧
      ((Split msg.Date.data).length < 6 → (NewZTESMS clock msg).2 = none →
        (NewZTESMS clock msg).1.Date = Time.Now clock ∧
          (NewZTESMS clock' msg).1.Date = Time.Now clock') := by
  have herr := NewZTESMS_err_indep clock clock' msg msg rfl rfl
  refine ⟨herr, ?_, ?_, fun h => NewZTESMS_of_err h clock', ?_⟩
  · by_cases h : (NewZTESMS clock msg).2 = none
    · obtain ⟨bs, hbs, e⟩ := NewZTESMS_of_ok h
      obtain ⟨bs', hbs', e'⟩ := NewZTESMS_of_ok (herr.trans h)
      rw [hbs] at hbs'
      cases hbs'
      rw [e, e']
    · rw [NewZTESMS_of_err h clock']
  · intro h6
    by_cases h : (NewZTESMS clock msg).2 = none
    · obtain ⟨bs, hbs, e⟩ := NewZTESMS_of_ok h
      obtain ⟨bs', hbs', e'⟩ := NewZTESMS_of_ok (herr.trans h)
      rw [hbs] at hbs'
      cases hbs'
      apply Prod.ext
      · rw [e, e', parseDate_same_six clock clock' msg.Date msg.Date h6 rfl]
      · exact herr
    · exact NewZTESMS_of_err h clock'
  · intro hshort hok
    exact ⟨by rw [NewZTESMS_date_of_ok hok, parseDate_of_short clock msg.Date hshort],
      by rw [NewZTESMS_date_of_ok (herr.trans hok), parseDate_of_short clock' msg.Date hshort]⟩

/-- Witness for C5: the example record, decoded at the clock readings 4 and 9,
and the record with the date "23,5,1", decoded at the same readings. -/
theorem NewZTESMS_same_up_to_clock_witness :
    (6 ≤ (Split dateExample.Date.data).length ∧
        NewZTESMS 9 dateExample = NewZTESMS 4 dateExample) ∧
      ((Split shortDateExample.Date.data).length < 6 ∧
        (NewZTESMS 4 shortDateExample).2 = none ∧
        (NewZTESMS 4 shortDateExample).1.Date = Time.Now 4 ∧
        (NewZTESMS 9 shortDateExample).1.Date = Time.Now 9) :=
  ⟨⟨by decide, (NewZTESMS_same_up_to_clock 4 9 dateExample).2.2.1 (by decide)⟩,
    ⟨by decide, by decide,
      (NewZTESMS_same_up_to_clock 4 9 shortDateExample).2.2.2.2 (by decide) (by decide)⟩⟩

theorem NewZTESMS_content_of_hex (clock : Nat) (msg : ZTEMessage) (text : List Char)
    (upper : Bool) (extra : List Nat) (hid : ParsesAsInt msg.ID.data)
    (hx : extra.length ≤ 1) (hb : ∀ b ∈ extra, b < 256)
    (hc : msg.Content.data = hexEncode upper (bigEndianBytes (utf16Encode text) ++ extra)) :
    (NewZTESMS clock msg).2 = none ∧ (NewZTESMS clock msg).1.Content = String.mk text := by
  have hbytes : ∀ b ∈ bigEndianBytes (utf16Encode text) ++ extra, b < 256 := by
    intro b hmem
    rcases List.mem_append.1 hmem with h | h
    · exact bigEndianBytes_lt _ b h (utf16Encode_lt text)
    · exact hb b h
  have hdec := DecodeString_hexEncode upper _ hbytes
  rw [← hc] at hdec
  have hok : (NewZTESMS clock msg).2 = none := by
    rw [NewZTESMS_ok_iff]
    exact ⟨hid, (DecodeString_ok_iff _).1 ⟨_, hdec⟩⟩
  refine ⟨hok, ?_⟩
  obtain ⟨bs, hbs, e⟩ := NewZTESMS_of_ok hok
  rw [hdec] at hbs
  cases hbs
  rw [e]
  simp only [contentUTF16_bigEndianBytes extra hx _ (utf16Encode_lt text),
    utf16Decode_utf16Encode, runesToString_map_toNat]

/-- C2. Round trip of the content step of `NewZTESMS`: the hexadecimal text, in
either case, of the UTF-16BE bytes of a text of Unicode scalar values decodes
without error to that text; so does the hexadecimal text of these bytes
followed by one more byte, which is dropped. -/
theorem content_round_trip (clock : Nat) (text : List Char) (upper : Bool) :
    (∀ msg : ZTEMessage, ParsesAsInt msg.ID.data →
        msg.Content.data = hexEncode upper (bigEndianBytes (utf16Encode text)) →
        (NewZTESMS clock msg).2 = none ∧ (NewZTESMS clock msg).1.Content = String.mk text) ∧
      (∀ (b : Nat) (msg : ZTEMessage), b < 256 → ParsesAsInt msg.ID.data →
        msg.Content.data = hexEncode upper (bigEndianBytes (utf16Encode text) ++ [b]) →
        (NewZTESMS clock msg).2 = none ∧ (NewZTESMS clock msg).1.Content = String.mk text) := by
  constructor
  · intro msg hid hc
    exact NewZTESMS_content_of_hex clock msg text upper [] hid (by simp) (by simp)
      (by rw [List.append_nil]; exact hc)
  · intro b msg hb hid hc
    exact NewZTESMS_content_of_hex clock msg text upper [b] hid (by simp) (by simpa using hb) hc

/-- Witness for C2: the upper-case hexadecimal text of "Hi😀" followed by the byte 0x4A. -/
theorem content_round_trip_witness :
    ({ dateExample with Content := "00480069D83DDE004A" }).Content.data =
        hexEncode true (bigEndianBytes (utf16Encode "Hi😀".data) ++ [0x4A]) ∧
      (NewZTESMS 0 { dateExample with Content := "00480069D83DDE004A" }).2 = none ∧
      (NewZTESMS 0 { dateExample with Content := "00480069D83DDE004A" }).1.Content = "Hi😀" :=
  ⟨by decide,
    (content_round_trip 0 "Hi😀".data true).2 0x4A
      { dateExample with Content := "00480069D83DDE004A" } (by decide) (by decide) (by decide)⟩

theorem toUpper_hextable (i : Nat) :
    (if 97 ≤ (hextable.getD i '0').toNat ∧ (hextable.getD i '0').toNat ≤ 122 then
        Char.ofNat ((hextable.getD i '0').toNat - 32) else hextable.getD i '0') =
      upperHexTable.getD i '0' := by
  by_cases h : i < 16
  · have : ∀ d : Fin 16,
        (if 97 ≤ (hextable.getD d.val '0').toNat ∧ (hextable.getD d.val '0').toNat ≤ 122 then
          Char.ofNat ((hextable.getD d.val '0').toNat - 32) else hextable.getD d.val '0') =
        upperHexTable.getD d.val '0' := by decide
    exact this ⟨i, h⟩
  · have h1 : hextable.getD i '0' = '0' := by
      rw [List.getD_eq_default]; simp only [hextable]; exact Nat.le_of_not_lt h
    have h2 : upperHexTable.getD i '0' = '0' := by
      rw [List.getD_eq_default]; simp only [upperHexTable]; exact Nat.le_of_not_lt h
    rw [h1, h2]
    decide

theorem sha256Hex_eq_upperHex (Sum256 : String → List Nat) (str : String) :
    sha256Hex Sum256 str = upperHex (Sum256 str) := by
  unfold sha256Hex upperHex
  congr 1
  induction Sum256 str with
  | nil => rfl
  | cons v vs ih =>
    have e1 : v >>> 4 = v / 16 := by rw [Nat.shiftRight_eq_div_pow]
    have e2 : v &&& 0x0f = v % 16 := Nat.and_pow_two_sub_one_eq_mod v 4
    simp only [EncodeToString, ToUpper, List.flatMap_cons, List.map_append, List.map_cons,
      List.map_nil, toUpper_hextable, e1, e2] at ih ⊢
    rw [ih]

theorem postOutcome_posted (dev : Device) (hp : String) : (postOutcome dev hp).posted = some hp := by
  unfold postOutcome
  cases dev.Do hp with
  | error e => rfl
  | ok resp =>
    simp only
    split_ifs
    · rfl
    · cases resp.Result with
      | error e => rfl
      | ok r => simp only; split_ifs <;> rfl

theorem Login_mode0 (Sum256 : String → List Nat) (base64 : String → String) (dev : Device)
    (password : String) (hcfg : dev.getNumericConfig "WEB_ATTR_IF_SUPPORT_SHA256" = .ok 0)
    (hreq : dev.newRequest = .ok ()) :
    Login Sum256 base64 dev password = postOutcome dev (base64 password) := by
  simp only [Login, hcfg, hreq, if_true, postOutcome]

theorem Login_mode1 (Sum256 : String → List Nat) (base64 : String → String) (dev : Device)
    (password : String) (hcfg : dev.getNumericConfig "WEB_ATTR_IF_SUPPORT_SHA256" = .ok 1)
    (hreq : dev.newRequest = .ok ()) :
    Login Sum256 base64 dev password =
      postOutcome dev (sha256Hex Sum256 (base64 password)) := by
  simp only [Login, hcfg, hreq, one_ne_zero, if_true, if_false, postOutcome]

theorem Login_mode2 (Sum256 : String → List Nat) (base64 : String → String) (dev : Device)
    (password nonce : String)
    (hcfg : dev.getNumericConfig "WEB_ATTR_IF_SUPPORT_SHA256" = .ok 2)
    (hld : dev.getLoginLD = .ok nonce) (hreq : dev.newRequest = .ok ()) :
    Login Sum256 base64 dev password =
      postOutcome dev (sha256Hex Sum256 (sha256Hex Sum256 password ++ nonce)) := by
  have h20 : ¬ ((2 : Int) = 0) := by decide
  have h21 : ¬ ((2 : Int) = 1) := by decide
  simp only [Login, hcfg, hld, hreq, h20, h21, if_true, if_false, postOutcome]

/-- C6. The password value `Login` posts is fixed by the probed hash mode:
base64 of the password for mode 0, upper-case hex of the SHA-256 of that for
mode 1, upper-case hex of the SHA-256 of (upper-case hex of the SHA-256 of the
password, followed by the nonce) for mode 2; for every other mode `Login`
fails with the unsupported-mode error and posts nothing. -/
theorem Login_digest_by_mode (Sum256 : String → List Nat) (base64 : String → String)
    (dev : Device) (password : String) (mode : Int)
    (hcfg : dev.getNumericConfig "WEB_ATTR_IF_SUPPORT_SHA256" = .ok mode)
    (hreq : dev.newRequest = .ok ()) :
    (mode = 0 → (Login Sum256 base64 dev password).posted = some (base64 password)) ∧
      (mode = 1 → (Login Sum256 base64 dev password).posted =
        some (upperHex (Sum256 (base64 password)))) ∧
      (mode = 2 → ∀ nonce : String, dev.getLoginLD = .ok nonce →
        (Login Sum256 base64 dev password).posted =
          some (upperHex (Sum256 (upperHex (Sum256 password) ++ nonce)))) ∧
      (mode ≠ 0 → mode ≠ 1 → mode ≠ 2 →
        Login Sum256 base64 dev password =
          ⟨none, some ("unsupported WEB_ATTR_IF_SUPPORT_SHA256: " ++ toString mode)⟩) := by
  refine ⟨?_, ?_, ?_, ?_⟩
  · intro h0
    subst h0
    rw [Login_mode0 Sum256 base64 dev password hcfg hreq, postOutcome_posted]
  · intro h1
    subst h1
    rw [Login_mode1 Sum256 base64 dev password hcfg hreq, postOutcome_posted,
      sha256Hex_eq_upperHex]
  · intro h2 nonce hld
    subst h2
    rw [Login_mode2 Sum256 base64 dev password nonce hcfg hld hreq, postOutcome_posted,
      sha256Hex_eq_upperHex, sha256Hex_eq_upperHex]
  · intro h0 h1 h2
    simp only [Login, hcfg, h0, h1, h2, if_false]

/-- Witness for C6: hash mode 2 with the nonce "n0", for stand-in hash and base64 functions. -/
theorem Login_digest_by_mode_witness :
    (Login (fun s => s.data.map Char.toNat) (fun s => s ++ "=") badPasswordDevice "pw").posted =
      some (upperHex ((upperHex ("pw".data.map Char.toNat) ++ "n0").data.map Char.toNat)) :=
  (Login_digest_by_mode (fun s => s.data.map Char.toNat) (fun s => s ++ "=") badPasswordDevice
    "pw" 2 rfl rfl).2.2.1 rfl "n0" rfl

/-- C8 fails on the code. For the query `perPage=5000`, with default 500 and
range [1, 1000], `parseQueryParam` returns the value 0 and no error: the value
is an integer outside the range, no error is reported, and the value returned
is neither the default nor in the range. -/
theorem parseQueryParam_out_of_range_no_error :
    Get perPageQuery "perPage" = "5000" ∧ ParsesAsInt "5000".data ∧
      decimalValue "5000".data = 5000 ∧
      parseQueryParam perPageQuery "perPage" 500 1 1000 = (0, none) := by
  decide

end ZTE
